import Mathlib

/-!
# Verification of the Mermaid normalization pipeline of UML ↔ Code Studio

Shallow embedding of the text-normalization code of the repository:

* `stripMermaidFences`  (src/server.mjs lines 104-112, identical copy in
  src/src/main.js lines 65-73)
* `normalizeMermaidOutput` (src/server.mjs lines 220-233)
* `sanitizeActivityFlowchart` (src/server.mjs lines 236-329)
* `sanitizeActivityFlowchartClient` (src/src/main.js lines 85-151)
* `mermaidKindConfig` (src/server.mjs lines 135-219)

The JavaScript functions are sequences of regex replacements over strings.
Each concrete regex is embedded as a hand-written scanner over `List Char`
implementing exactly that pattern's matching semantics (left-to-right,
non-overlapping, case flags as in the source).  All definitions are
executable so theorems about concrete inputs evaluate by `decide`/`rfl`.
-/

set_option maxRecDepth 20000

namespace UmlStudio

/-- JS `\s` (ASCII fragment: space, tab, newline, carriage return,
vertical tab, form feed).  All inputs considered here are ASCII. -/
def isWs (c : Char) : Bool :=
  c = ' ' || c = '\t' || c = '\n' || c = '\r' || c = '\x0b' || c = '\x0c'

/-- JS `\w`, i.e. `[A-Za-z0-9_]`. -/
def isWord (c : Char) : Bool :=
  c.isAlphanum || c = '_'

/-- JS ASCII letter (`[A-Z]` under the `i` flag). -/
def isLetter (c : Char) : Bool :=
  c.isAlpha

/-- Lower-case a character (ASCII; agrees with JS `toLowerCase` on ASCII). -/
def lc (c : Char) : Char := c.toLower

/-- Case-insensitive character comparison (for regexes with the `i` flag). -/
def eqCI (a b : Char) : Bool := lc a = lc b

/-- Try to consume the literal `pat` case-insensitively; return the rest. -/
def eatCI : List Char → List Char → Option (List Char)
  | [], l => some l
  | _ :: _, [] => none
  | p :: ps, c :: cs => if eqCI p c then eatCI ps cs else none

/-- Try to consume the literal `pat` case-sensitively; return the rest. -/
def eatCS : List Char → List Char → Option (List Char)
  | [], l => some l
  | _ :: _, [] => none
  | p :: ps, c :: cs => if p = c then eatCS ps cs else none

/-- Drop leading JS whitespace (`\s*`). -/
def dropWs (l : List Char) : List Char := l.dropWhile isWs

/-- The leading JS-whitespace run of `l` (what a greedy `\s*` consumes). -/
def takeWs (l : List Char) : List Char := l.takeWhile isWs

/-- JS `String.prototype.trim` on ASCII text. -/
def jsTrimList (l : List Char) : List Char :=
  ((l.dropWhile isWs).reverse.dropWhile isWs).reverse

def jsTrim (s : String) : String := ⟨jsTrimList s.data⟩

/-- Does `l` start with `pat` (case-sensitive)? -/
def startsWithCS (pat l : List Char) : Bool := (eatCS pat l).isSome

/-- Does `l` end with `pat` (case-sensitive)? -/
def endsWithCS (pat l : List Char) : Bool := startsWithCS pat.reverse l.reverse

/-!
## Fence Stripper — `stripMermaidFences` (server.mjs 104-112 = main.js 65-73)

```js
function stripMermaidFences(s) {
  if (!s) return '';
  let t = String(s).trim();
  t = t.replace(/^```(?:mermaid)?\s*\/i, '').replace(/\s*```$\/i, '');
  if (/^```/.test(t) && /```$/.test(t)) {
    t = t.replace(/^```\s*\/i, '').replace(/\s*```$\/i, '');
  }
  return t.trim();
}
```
-/

/-- `t.replace(/^\x60\x60\x60(?:mermaid)?\s*\/i, '')` — non-global, anchored:
if `t` starts with three backticks, drop them, then optionally the word
`mermaid` (case-insensitively), then the following whitespace run. -/
def stripLeadFence (l : List Char) : List Char :=
  match eatCS ['\x60', '\x60', '\x60'] l with
  | none => l
  | some rest =>
    match eatCI ['m', 'e', 'r', 'm', 'a', 'i', 'd'] rest with
    | some rest2 => dropWs rest2
    | none => dropWs rest

/-- `t.replace(/\s*\x60\x60\x60$\/i, '')` — non-global: the leftmost match of
`\s*\x60\x60\x60$` is the final three backticks together with the whitespace
run immediately before them, when `t` ends in three backticks. -/
def stripTrailFence (l : List Char) : List Char :=
  if endsWithCS ['\x60', '\x60', '\x60'] l then
    (dropWs ((l.take (l.length - 3)).reverse)).reverse
  else l

/-- `t.replace(/^\x60\x60\x60\s*\/i, '')` used inside the double-fence branch. -/
def stripLeadFenceBare (l : List Char) : List Char :=
  match eatCS ['\x60', '\x60', '\x60'] l with
  | none => l
  | some rest => dropWs rest

/-- `stripMermaidFences` from the source (both copies are textually equal). -/
def stripMermaidFences (s : String) : String :=
  if s = "" then ""
  else
    let t := jsTrimList s.data
    let t := stripTrailFence (stripLeadFence t)
    let t :=
      if startsWithCS ['\x60', '\x60', '\x60'] t &&
         endsWithCS ['\x60', '\x60', '\x60'] t then
        stripTrailFence (stripLeadFenceBare t)
      else t
    ⟨jsTrimList t⟩

/-!
## Generic driver for global regex replacement

A JS global `String.replace` scans left to right; after a match it resumes
right after the matched text (matches never overlap), and the replacement
text is not rescanned.  `step atStart prev l` attempts a match at the head
of `l` (`atStart` = position 0 of the string, for `^`; `prev` = previous
character of the original string, for `\b`); on success it returns the
replacement together with the unconsumed rest.  Every pattern below
consumes at least one character on success, so `l.length` fuel suffices.
-/

/-- Last character of the portion of `l` consumed to reach `rest`. -/
def consumedLast (l rest : List Char) : Option Char :=
  (l.take (l.length - rest.length)).getLast?

def runRepl (step : Bool → Option Char → List Char → Option (List Char × List Char)) :
    Nat → Bool → Option Char → List Char → List Char
  | 0, _, _, l => l
  | fuel + 1, atStart, prev, l =>
    match l with
    | [] => []
    | c :: rest =>
      match step atStart prev l with
      | some (rep, rest') =>
        rep ++ runRepl step fuel false (consumedLast l rest') rest'
      | none => c :: runRepl step fuel false (some c) rest

/-- Entry point: run a global replacement over a whole string. -/
def greplace (step : Bool → Option Char → List Char → Option (List Char × List Char))
    (l : List Char) : List Char :=
  runRepl step (l.length + 1) true none l

/-- `\b` to the left of the current position: previous char absent or non-word. -/
def boundaryL : Option Char → Bool
  | none => true
  | some c => !isWord c

/-- `\b` to the right: next char absent or non-word. -/
def boundaryR : List Char → Bool
  | [] => true
  | c :: _ => !isWord c

/-!
## Reserved-Identifier Rewriter (server.mjs 241-252 = main.js 93-101)

```js
t = t.replace(/(^|\s)start\(\(\s*Start\s*\)\)/ig, (_,p1)=>`${p1}startNode((Start))`)
     .replace(/(^|\s)end\(\(\s*End\s*\)\)/ig,   (_,p1)=>`${p1}endNode((End))`);
t = t.replace(/(\s-->\s*)end\(\(\s*End\s*\)\)/ig, '$1endNode((End))')
     .replace(/(\s-->\s*)start\(\(\s*Start\s*\)\)/ig, '$1startNode((Start))');
t = t.replace(/(-->|-\.->|\.\.->)\s*end\b/ig, '$1 endNode')
     .replace(/\bend\b\s*(-->|-\.->|\.\.->)/ig, 'endNode $1')
     .replace(/(-->|-\.->|\.\.->)\s*start\b/ig, '$1 startNode')
     .replace(/\bstart\b\s*(-->|-\.->|\.\.->)/ig, 'startNode $1');
```
-/

/-- Parse `word\(\(\s*Word\s*\)\)` case-insensitively, e.g. `end((End))`,
given the two literal tokens; returns the rest on success. -/
def eatResvDecl (w1 w2 : List Char) (l : List Char) : Option (List Char) := do
  let r ← eatCI w1 l
  let r ← eatCS ['(', '('] r
  let r := dropWs r
  let r ← eatCI w2 r
  let r := dropWs r
  eatCS [')', ')'] r

/-- Step for `(^|\s)start\(\(\s*Start\s*\)\)` → `$1startNode((Start))`
(and the `end` variant): `w1`/`w2` are the reserved word and its label,
`alias_` the replacement identifier with canonical label. -/
def stepResvDecl (w1 w2 alias_ : List Char) (atStart : Bool) (_ : Option Char)
    (l : List Char) : Option (List Char × List Char) :=
  if atStart then
    match eatResvDecl w1 w2 l with
    | some rest => some (alias_, rest)
    | none =>
      match l with
      | c :: rest1 =>
        if isWs c then
          match eatResvDecl w1 w2 rest1 with
          | some rest => some (c :: alias_, rest)
          | none => none
        else none
      | [] => none
  else
    match l with
    | c :: rest1 =>
      if isWs c then
        match eatResvDecl w1 w2 rest1 with
        | some rest => some (c :: alias_, rest)
        | none => none
      else none
    | [] => none

/-- Step for `(\s-->\s*)end\(\(\s*End\s*\)\)` → `$1endNode((End))` (and the
`start` variant): one whitespace char, a solid arrow, whitespace, then the
reserved inline declaration. -/
def stepResvInline (w1 w2 alias_ : List Char) (_ : Bool) (_ : Option Char)
    (l : List Char) : Option (List Char × List Char) :=
  match l with
  | c :: rest1 =>
    if isWs c then
      match eatCS ['-', '-', '>'] rest1 with
      | some rest2 =>
        let ws2 := takeWs rest2
        match eatResvDecl w1 w2 (dropWs rest2) with
        | some rest => some (c :: '-' :: '-' :: '>' :: ws2 ++ alias_, rest)
        | none => none
      | none => none
    else none
  | [] => none

/-- Parse one of the three arrow tokens `-->`, `-.->`, `..->`
(alternation order of the source pattern); returns (arrow, rest). -/
def eatArrow (l : List Char) : Option (List Char × List Char) :=
  match eatCS ['-', '-', '>'] l with
  | some r => some (['-', '-', '>'], r)
  | none =>
    match eatCS ['-', '.', '-', '>'] l with
    | some r => some (['-', '.', '-', '>'], r)
    | none =>
      match eatCS ['.', '.', '-', '>'] l with
      | some r => some (['.', '.', '-', '>'], r)
      | none => none

/-- Step for `(-->|-\.->|\.\.->)\s*end\b` → `$1 endNode`:
arrow, whitespace, bare reserved word, right boundary. -/
def stepBareAfterArrow (w alias_ : List Char) (_ : Bool) (_ : Option Char)
    (l : List Char) : Option (List Char × List Char) :=
  match eatArrow l with
  | some (arrow, rest1) =>
    match eatCI w (dropWs rest1) with
    | some rest =>
      if boundaryR rest then some (arrow ++ ' ' :: alias_, rest) else none
    | none => none
  | none => none

/-- Step for `\bend\b\s*(-->|-\.->|\.\.->)` → `endNode $1`:
left boundary, bare reserved word, right boundary, whitespace, arrow. -/
def stepBareBeforeArrow (w alias_ : List Char) (_ : Bool) (prev : Option Char)
    (l : List Char) : Option (List Char × List Char) :=
  if boundaryL prev then
    match eatCI w l with
    | some rest1 =>
      if boundaryR rest1 then
        match eatArrow (dropWs rest1) with
        | some (arrow, rest) => some (alias_ ++ ' ' :: arrow, rest)
        | none => none
      else none
    | none => none
  else none

def startW : List Char := ['s', 't', 'a', 'r', 't']
def endW : List Char := ['e', 'n', 'd']
def startNodeW : List Char := "startNode".data
def endNodeW : List Char := "endNode".data

/-- The whole reserved-identifier stage (order exactly as in the source). -/
def reservedRewrite (l : List Char) : List Char :=
  let l := greplace (stepResvDecl startW startW ("startNode((Start))").data) l
  let l := greplace (stepResvDecl endW endW ("endNode((End))").data) l
  let l := greplace (stepResvInline endW endW ("endNode((End))").data) l
  let l := greplace (stepResvInline startW startW ("startNode((Start))").data) l
  let l := greplace (stepBareAfterArrow endW endNodeW) l
  let l := greplace (stepBareBeforeArrow endW endNodeW) l
  let l := greplace (stepBareAfterArrow startW startNodeW) l
  greplace (stepBareBeforeArrow startW startNodeW) l

/-!
## Branch-Label Syntax Corrector (server.mjs 256-257 = main.js 87-89)

```js
t = t.replace(reg1_g, '-->|$1|')      // reg1 = --\|([^|]+)\|-->
     .replace(reg2_g, '-->|$1| $2');  // reg2 = --\|([^|]+)\|\s+([A-Za-z_][\w]*)
```
-/

/-- Parse `--\|([^|]+)\|`: returns (label, rest-after-second-pipe). -/
def eatDashLabel (l : List Char) : Option (List Char × List Char) := do
  let r ← eatCS ['-', '-', '|'] l
  let lab := r.takeWhile (fun c => c ≠ '|')
  if lab.isEmpty then none
  else
    match r.drop lab.length with
    | '|' :: rest => some (lab, rest)
    | _ => none

/-- Step for `--\|([^|]+)\|-->` → `-->|$1|`. -/
def stepBranchArrow (_ : Bool) (_ : Option Char) (l : List Char) :
    Option (List Char × List Char) :=
  match eatDashLabel l with
  | some (lab, rest1) =>
    match eatCS ['-', '-', '>'] rest1 with
    | some rest => some ('-' :: '-' :: '>' :: '|' :: lab ++ ['|'], rest)
    | none => none
  | none => none

/-- Step for `--\|([^|]+)\|\s+([A-Za-z_][\w]*)` → `-->|$1| $2`
(the separating whitespace run is replaced by a single space). -/
def stepBranchBare (_ : Bool) (_ : Option Char) (l : List Char) :
    Option (List Char × List Char) :=
  match eatDashLabel l with
  | some (lab, rest1) =>
    let ws := takeWs rest1
    if ws.isEmpty then none
    else
      match rest1.drop ws.length with
      | c :: rest2 =>
        if isLetter c || c = '_' then
          let tl := rest2.takeWhile isWord
          some ('-' :: '-' :: '>' :: '|' :: lab ++ '|' :: ' ' :: c :: tl,
                rest2.drop tl.length)
        else none
      | [] => none
  | none => none

/-- The branch-label stage. -/
def branchLabelFix (l : List Char) : List Char :=
  greplace stepBranchBare (greplace stepBranchArrow l)

/-!
## Anonymous-Node Identifier Allocator (server.mjs 259-291 = main.js 102-126)

```js
const idMap = new Map();
let seq = 1;
const slug = s => (s||'').toLowerCase().replace(badRun_g,'_')
                  .replace(trimUnderscore_g,'') || `n${seq++}`;
   // badRun = [^a-z0-9]+ , trimUnderscore = ^_+|_+$
const ensureId = (key, base) => {
  if (idMap.has(key)) return idMap.get(key);
  let v = base; let i = 2;
  while (idMap.has(v)) v = `${base}_${i++}`;
  idMap.set(key, v); idMap.set(v, true);
  return v;
};
```

The single `Map` stores both NodeKey → identifier bindings (string values)
and issued identifiers (value `true`).  It is modelled as an association
list with JS `Map.set` replace-or-append semantics.
-/

/-- A value stored in the JS `Map`: either an allocated identifier string
or the literal `true` marking an identifier as used. -/
inductive MVal where
  | istr : String → MVal
  | used : MVal
deriving DecidableEq, Repr

/-- `Map.get` (first binding wins; keys are unique by construction). -/
def mget (k : String) : List (String × MVal) → Option MVal
  | [] => none
  | (k', v) :: rest => if k = k' then some v else mget k rest

/-- `Map.set`: replace an existing binding in place, else append. -/
def mset (k : String) (v : MVal) : List (String × MVal) → List (String × MVal)
  | [] => [(k, v)]
  | (k', v') :: rest =>
    if k = k' then (k, v) :: rest else (k', v') :: mset k v rest

/-- Decimal digit character (used by the embedding of JS number→string). -/
def digCh : Nat → Char
  | 0 => '0' | 1 => '1' | 2 => '2' | 3 => '3' | 4 => '4'
  | 5 => '5' | 6 => '6' | 7 => '7' | 8 => '8' | _ => '9'

/-- Fuel-driven decimal digits (most significant first); `fuel > n` is
always enough. -/
def natToDecAux : Nat → Nat → List Char
  | 0, _ => []
  | fuel + 1, n =>
    if n < 10 then [digCh n]
    else natToDecAux fuel (n / 10) ++ [digCh (n % 10)]

/-- JS decimal rendering of a natural number (template-literal `${i}`). -/
def natToDec (n : Nat) : String := ⟨natToDecAux (n + 1) n⟩

/-- The candidate sequence of the `while` loop of `ensureId`:
`base`, `base_2`, `base_3`, … -/
def cand (base : String) : Nat → String
  | 0 => base
  | i + 1 => base ++ "_" ++ natToDec (i + 2)

/-- Index of the first unmapped candidate, by fuelled search (the source's
`while (idMap.has(v))`); `m.length + 1` fuel always finds one. -/
def findFree (m : List (String × MVal)) (base : String) : Nat → Nat → Nat
  | 0, i => i
  | fuel + 1, i =>
    if mget (cand base i) m = none then i else findFree m base fuel (i + 1)

/-- `ensureId` from the source.  In the `Map.get` hit case the stored value
is returned as-is; if it were the marker `true`, JS would return the boolean,
which stringifies to `"true"` at the use sites — kept for fidelity (the
invariant proofs show this branch is unreachable for the actual keys). -/
def ensureId (key base : String) (m : List (String × MVal)) :
    String × List (String × MVal) :=
  match mget key m with
  | some (.istr s) => (s, m)
  | some .used => ("true", m)
  | none =>
    let v := cand base (findFree m base (m.length + 1) 0)
    (v, mset v .used (mset key (.istr v) m))

/-- Lower-case ASCII letter or digit (`[a-z0-9]`). -/
def isLowerDigit (c : Char) : Bool :=
  ('a' ≤ c && c ≤ 'z') || c.isDigit

/-- Collapse every run of characters outside `[a-z0-9]` to one underscore
(the `badRun_g → '_'` replacement). -/
def collapseBad : List Char → List Char
  | [] => []
  | c :: rest =>
    let tail := collapseBad rest
    if isLowerDigit c then c :: tail
    else
      match tail with
      | '_' :: _ => tail
      | _ => '_' :: tail

/-- Strip the leading and trailing underscore runs (`^_+|_+$` → ''). -/
def trimUnderscores (l : List Char) : List Char :=
  ((l.dropWhile (· = '_')).reverse.dropWhile (· = '_')).reverse

/-- Mutable allocator state: the map plus the `seq` counter. -/
structure Alloc where
  table : List (String × MVal)
  seq : Nat
deriving Repr

/-- `slug` from the source; bumps `seq` exactly when the slug is empty. -/
def slug (s : String) (st : Alloc) : String × Alloc :=
  let core := trimUnderscores (collapseBad (s.data.map lc))
  if core.isEmpty then
    ("n" ++ natToDec st.seq, { st with seq := st.seq + 1 })
  else (⟨core⟩, st)

/-!
### The three shape scanners

```js
t = t.replace(rect_g,  (_, lead, whole, label, klass='') => {
      if (wordBracket.test(lead)) return `${lead}${whole}${klass||''}`;
      const id = ensureId(`[]:${label}`, slug(label));
      return `${lead}${id}[${label}]${klass||''}`;
    });
t = t.replace(circ_g,  (_, lead, whole, label, klass='') => {
      const base = reEnd.test(label) ? 'endNode'
                 : reStart.test(label) ? 'startNode' : slug(label);
      const id = ensureId(`((${label}))`, base);
      return `${lead}${id}((${label}))${klass||''}`;
    });
t = t.replace(diam_g,  ... ensureId(`{}:${label}`, `q_${slug(label)}`) ...);
```

with `rect_g  = (^|\s)(\[\s*([^\[\]\n]+?)\s*\])(:::[\w-]+)?` and the
analogous circular/diamond patterns.  The client-side copy (main.js) is
identical except that the circular bases are `'end'` and `'start'`.
-/

/-- Lazy group of the bracket patterns: the minimal non-empty prefix of
characters outside `bad` after which the close bracket follows, possibly
separated by a whitespace run (the trailing greedy `\s*`, which — unlike
the group itself — may span newlines).  Returns (capture, rest after the
close).  Because the expansion is minimal, the capture never ends in
whitespace. -/
def lazyContent (bad : List Char) (close : List Char → Option (List Char)) :
    List Char → Option (List Char × List Char)
  | [] => none
  | c :: rest =>
    if c ∈ bad then none
    else
      match close (dropWs rest) with
      | some r => some ([c], r)
      | none =>
        match lazyContent bad close rest with
        | some (lab, r) => some (c :: lab, r)
        | none => none

/-- Inner part of the bracket patterns, e.g. `\s*([^\[\]\n]+?)\s*\]` for
the rectangle: given the forbidden characters and the closing-bracket
parser, returns (captured label, rest after the close).  The greedy
leading `\s*` first hands the lazy group the text after the whitespace
run; if no match starts there, it backtracks into the run itself, where
the lazy group takes a single whitespace character — which must not be a
newline, since the group excludes `\n` — and the trailing `\s*` (which
may span newlines) absorbs the remainder of the run before the close.
So `[x\n]` captures `x`, `[ \n]` captures the space, and `[\n]` does
not match. -/
def eatLabelTo (bad : List Char) (close : List Char → Option (List Char))
    (l : List Char) : Option (List Char × List Char) :=
  let ws := takeWs l
  let body := l.drop ws.length
  match lazyContent bad close body with
  | some r => some r
  | none =>
    match (ws.filter (fun c => c ≠ '\n')).getLast?, close body with
    | some w, some rest => some ([w], rest)
    | _, _ => none

/-- The optional style-class suffix `(:::[\w-]+)?`; returns (suffix, rest). -/
def eatKlass (l : List Char) : List Char × List Char :=
  match eatCS [':', ':', ':'] l with
  | some rest1 =>
    let run := rest1.takeWhile (fun c => isWord c || c = '-')
    if run.isEmpty then ([], l)
    else (':' :: ':' :: ':' :: run, rest1.drop run.length)
  | none => ([], l)

/-- `/[A-Za-z0-9_]\[$/.test(lead)` (and the `{` analogue): whether the
captured lead ends with a word character followed by the open bracket.
The lead of these patterns is `(^|\s)` — one whitespace character or
nothing — so this test never succeeds; kept as a faithful translation. -/
def leadHasIdOpen (opener : Char) (lead : List Char) : Bool :=
  match lead.reverse with
  | b :: c :: _ => b = opener && isWord c
  | _ => false

/-- One shape pass, parameterised by the bracket syntax and the id choice.
`openB`/`closeB` are the brackets, `bad` the label-forbidden characters,
`guarded` enables the dead `lead` test with the given opener, and
`mkId label st` computes (identifier, new state) for one occurrence. -/
def shapeStep (openB : List Char) (closeB : List Char) (bad : List Char)
    (guard : Option Char) (mkId : String → Alloc → String × Alloc)
    (rebuild : List Char → List Char → List Char)
    (atStart : Bool) (l : List Char) (st : Alloc) :
    Option (List Char × List Char × Alloc) :=
  let core : List Char → List Char → Option (List Char × List Char × Alloc) :=
    fun lead body =>
      match eatCS openB body with
      | some r1 =>
        match eatLabelTo bad (eatCS closeB) r1 with
        | some (lab, rest1) =>
          let (klass, rest) := eatKlass rest1
          match guard with
          | some op =>
            if leadHasIdOpen op lead then
              -- pass-through branch: re-emit lead, whole, klass unchanged
              let whole := l.take (l.length - rest.length)
              some (whole, rest, st)
            else
              let (id, st') := mkId ⟨lab⟩ st
              some (lead ++ id.data ++ rebuild lab klass, rest, st')
          | none =>
            let (id, st') := mkId ⟨lab⟩ st
            some (lead ++ id.data ++ rebuild lab klass, rest, st')
        | none => none
      | none => none
  if atStart then
    match core [] l with
    | some r => some r
    | none =>
      match l with
      | c :: rest1 => if isWs c then core [c] rest1 else none
      | [] => none
  else
    match l with
    | c :: rest1 => if isWs c then core [c] rest1 else none
    | [] => none

/-- Driver for a stateful global replacement. -/
def runReplSt (step : Bool → List Char → Alloc → Option (List Char × List Char × Alloc)) :
    Nat → Bool → List Char → Alloc → List Char × Alloc
  | 0, _, l, st => (l, st)
  | fuel + 1, atStart, l, st =>
    match l with
    | [] => ([], st)
    | c :: rest =>
      match step atStart l st with
      | some (rep, rest', st') =>
        let (out, st'') := runReplSt step fuel false rest' st'
        (rep ++ out, st'')
      | none =>
        let (out, st') := runReplSt step fuel false rest st
        (c :: out, st')

def greplaceSt (step : Bool → List Char → Alloc → Option (List Char × List Char × Alloc))
    (l : List Char) (st : Alloc) : List Char × Alloc :=
  runReplSt step (l.length + 1) true l st

/-- Case-insensitive substring test (`reEnd = /end/i` etc.). -/
def containsCI (pat : List Char) : List Char → Bool
  | [] => pat.isEmpty
  | c :: rest => (eatCI pat (c :: rest)).isSome || containsCI pat rest

/-- Rectangle pass: `[Label]` → `id[Label]`, key `[]:Label`, base `slug`. -/
def rectStep : Bool → List Char → Alloc → Option (List Char × List Char × Alloc) :=
  fun atStart l st =>
    shapeStep ['['] [']'] ['[', ']', '\n'] (some '[')
      (fun lab st =>
        let (b, st') := slug lab st
        let (id, table') := ensureId ("[]:" ++ lab) b st'.table
        (id, { st' with table := table' }))
      (fun lab klass => '[' :: lab ++ ']' :: klass)
      atStart l st

/-- Circular pass with a parameterised reserved base (`endNode`/`startNode`
on the server, `end`/`start` in the client copy). -/
def circStepWith (endBase startBase : String) :
    Bool → List Char → Alloc → Option (List Char × List Char × Alloc) :=
  fun atStart l st =>
    shapeStep ['(', '('] [')', ')'] ['(', ')', '\n'] none
      (fun lab st =>
        let (b, st') :=
          if containsCI endW lab.data then (endBase, st)
          else if containsCI startW lab.data then (startBase, st)
          else slug lab st
        let (id, table') := ensureId ("((" ++ lab ++ "))") b st'.table
        (id, { st' with table := table' }))
      (fun lab klass => '(' :: '(' :: lab ++ ')' :: ')' :: klass)
      atStart l st

/-- Diamond pass: `\x7bLabel\x7d` → `id\x7bLabel\x7d`, key `\x7b\x7d:Label`,
base `q_slug`. -/
def diamStep : Bool → List Char → Alloc → Option (List Char × List Char × Alloc) :=
  fun atStart l st =>
    shapeStep ['\x7b'] ['\x7d'] ['\x7b', '\x7d', '\n'] (some '\x7b')
      (fun lab st =>
        let (b, st') := slug lab st
        let (id, table') := ensureId ("\x7b\x7d:" ++ lab) ("q_" ++ b) st'.table
        (id, { st' with table := table' }))
      (fun lab klass => '\x7b' :: lab ++ '\x7d' :: klass)
      atStart l st

/-- Stage 3 of the server pipeline (rect → circular → diamond, one shared
fresh allocator state). -/
def allocStage (endBase startBase : String) (l : List Char) : List Char :=
  let st0 : Alloc := ⟨[], 1⟩
  let (l, st) := greplaceSt rectStep l st0
  let (l, st) := greplaceSt (circStepWith endBase startBase) l st
  (greplaceSt diamStep l st).1

/-!
## Stages 4-7 of the pipeline (server.mjs 293-326, main.js 127-150)
-/

/-- Step for `-->\s*\(\(\s*End\s*\)\)` → `--> endNode` (gi; and the Start
variant): solid arrow, whitespace, anonymous circular reserved label. -/
def stepAnonRef (w alias_ : List Char) (_ : Bool) (_ : Option Char)
    (l : List Char) : Option (List Char × List Char) := do
  let r ← eatCS ['-', '-', '>'] l
  let r ← eatCS ['(', '('] (dropWs r)
  let r ← eatCI w (dropWs r)
  let rest ← eatCS [')', ')'] (dropWs r)
  some ('-' :: '-' :: '>' :: ' ' :: alias_, rest)

/-- `-->((End))`/`-->((Start))` cleanup (server stage 4; rerun as stage 6). -/
def anonRefFix (l : List Char) : List Char :=
  greplace (stepAnonRef startW startNodeW) (greplace (stepAnonRef endW endNodeW) l)

/-- Match `ws* "pat..." ` from a given position, where the pattern begins a
multiline `^\s*…` test: leading `\s*` may span line breaks. -/
def matchFromLineStart (k : List Char → Bool) (l : List Char) : Bool :=
  k (dropWs l)

/-- The suffixes of `l` that start right after a `'\n'`. -/
def lineStarts : List Char → List (List Char)
  | [] => []
  | c :: rest => (if c = '\n' then [rest] else []) ++ lineStarts rest

/-- A multiline `^…` test: try at the string start and after every newline. -/
def mTest (k : List Char → Bool) (l : List Char) : Bool :=
  k l || (lineStarts l).any k

/-- `/^\s*flowchart\s+TD\b/m` (case-sensitive). -/
def hasHeaderTD (l : List Char) : Bool :=
  mTest (fun l =>
    match eatCS "flowchart".data (dropWs l) with
    | some r =>
      let ws := takeWs r
      if ws.isEmpty then false
      else
        match eatCS ['T', 'D'] (r.drop ws.length) with
        | some r2 => boundaryR r2
        | none => false
    | none => false) l

/-- `/^\s*flowchart\s+\w+\b/m` (client variant: any direction word). -/
def hasHeaderAny (l : List Char) : Bool :=
  mTest (fun l =>
    match eatCS "flowchart".data (dropWs l) with
    | some r =>
      let ws := takeWs r
      if ws.isEmpty then false
      else
        let w := (r.drop ws.length).takeWhile isWord
        ¬ w.isEmpty
    | none => false) l

/-- `/^\s*startNode\(\(/m` and `/^\s*endNode\(\(/m`. -/
def declaresAlias (alias_ : List Char) (l : List Char) : Bool :=
  mTest (fun l => (eatCS (alias_ ++ ['(', '(']) (dropWs l)).isSome) l

/-- One position of the reference test
`\b(?:-->|-\.->|\.\.->)\s*endNode\b|\bendNode\b\s*(?:-->|-\.->|\.\.->)` (i).
Note the leading `\b` of the first alternative: it requires a word
character immediately before the arrow. -/
def refAliasAt (alias_ : List Char) (prev : Option Char) (l : List Char) : Bool :=
  -- `\b` before an arrow token: the next character is `-` or `.` (non-word),
  -- so the position is a boundary exactly when the previous character is a
  -- word character
  ((match prev with | some c => isWord c | none => false) &&
    (match eatArrow l with
     | some (_, r) =>
       (match eatCI alias_ (dropWs r) with
        | some r2 => boundaryR r2
        | none => false)
     | none => false)) ||
  (boundaryL prev &&
    (match eatCI alias_ l with
     | some r =>
       boundaryR r && (eatArrow (dropWs r)).isSome
     | none => false))

/-- Whole-string search for the reference test. -/
def refsAlias (alias_ : List Char) : List Char → Bool :=
  go none
where
  go (prev : Option Char) : List Char → Bool
  | [] => refAliasAt alias_ prev []
  | c :: rest => refAliasAt alias_ prev (c :: rest) || go (some c) rest

/-- Parse the header chunk matched by `/^\s*flowchart\s+TD\s*\n?/` (resp.
`\w+` for the client): returns (matched chunk, rest) when the string starts
with it.  The trailing greedy `\s*` absorbs the newline and any further
whitespace; the final `\n?` then matches nothing. -/
def eatHeaderChunk (anyDir : Bool) (l : List Char) : Option (List Char × List Char) := do
  let ws0 := takeWs l
  let r ← eatCS "flowchart".data (l.drop ws0.length)
  let ws1 := takeWs r
  if ws1.isEmpty then none
  else
    let r1 := r.drop ws1.length
    if anyDir then
      let w := r1.takeWhile isWord
      if w.isEmpty then none
      else
        let r2 := r1.drop w.length
        let ws2 := takeWs r2
        some (ws0 ++ "flowchart".data ++ ws1 ++ w ++ ws2, r2.drop ws2.length)
    else
      match eatCS ['T', 'D'] r1 with
      | some r2 =>
        let ws2 := takeWs r2
        some (ws0 ++ "flowchart".data ++ ws1 ++ 'T' :: 'D' :: ws2, r2.drop ws2.length)
      | none => none

/-- The declaration lines injected after the header. -/
def startDeclLine : List Char := "startNode((Start)):::startend\n".data
def endDeclLine : List Char := "endNode((End)):::startend\n".data

/-- Server stage 5: if a `flowchart TD` header line exists anywhere, rewrite
the leading header chunk, appending a declaration for each referenced but
undeclared alias (start before end). -/
def injectDecls (l : List Char) : List Char :=
  let declS := declaresAlias startNodeW l
  let declE := declaresAlias endNodeW l
  let refS := refsAlias startNodeW l
  let refE := refsAlias endNodeW l
  if hasHeaderTD l then
    match eatHeaderChunk false l with
    | some (chunk, rest) =>
      chunk ++ (if refS && !declS then startDeclLine else []) ++
        (if refE && !declE then endDeclLine else []) ++ rest
    | none => l
  else l

/-- Client variant: any `flowchart <dir>` header, and the rewrite happens
only when some declaration is actually missing. -/
def injectDeclsClient (l : List Char) : List Char :=
  let declS := declaresAlias startNodeW l
  let declE := declaresAlias endNodeW l
  let refS := refsAlias startNodeW l
  let refE := refsAlias endNodeW l
  if hasHeaderAny l && ((refS && !declS) || (refE && !declE)) then
    match eatHeaderChunk true l with
    | some (chunk, rest) =>
      chunk ++ (if refS && !declS then startDeclLine else []) ++
        (if refE && !declE then endDeclLine else []) ++ rest
    | none => l
  else l

/-- `/:::(startend|step|decision|bar)\b/` (case-sensitive, whole string). -/
def usesClasses : List Char → Bool
  | [] => false
  | c :: rest =>
    (match eatCS [':', ':', ':'] (c :: rest) with
     | some r =>
       (["startend", "step", "decision", "bar"].any fun w =>
         match eatCS w.data r with
         | some r2 => boundaryR r2
         | none => false)
     | none => false) || usesClasses rest

/-- `/^\s*classDef\s+/m`. -/
def hasClassDef (l : List Char) : Bool :=
  mTest (fun l =>
    match eatCS "classDef".data (dropWs l) with
    | some r => !(takeWs r).isEmpty
    | none => false) l

/-- The default style-class block appended by stage 8 (exact source text). -/
def classDefBlock : String :=
  "\n\nclassDef startend fill:#fff,stroke:#888,stroke-width:1px,color:#111;\n" ++
  "classDef bar stroke:#333,stroke-width:4px;\n" ++
  "classDef step fill:#eef,stroke:#99f,color:#001;\n" ++
  "classDef decision fill:#ffd,stroke:#cc4,color:#221;"

/-- Stage 8: append the default class definitions when tags are used but no
`classDef` exists. -/
def classDefFix (l : List Char) : List Char :=
  if usesClasses l && !hasClassDef l then l ++ classDefBlock.data else l

/-!
## Header forcing (server stage 1) — `^\s*(graph|flowchart)\s+[A-Z]\x7b1,2\x7d` (i)
replaced (non-globally, anchored) by `flowchart TD`.
-/

def headerForce (l : List Char) : List Char :=
  let ws0 := takeWs l
  let body := l.drop ws0.length
  let kw :=
    match eatCI "graph".data body with
    | some r => some r
    | none => eatCI "flowchart".data body
  match kw with
  | some r =>
    let ws1 := takeWs r
    if ws1.isEmpty then l
    else
      match r.drop ws1.length with
      | c :: rest =>
        if isLetter c then
          match rest with
          | d :: rest2 =>
            if isLetter d then "flowchart TD".data ++ rest2
            else "flowchart TD".data ++ rest
          | [] => "flowchart TD".data
        else l
      | [] => l
  | none => l

/-!
## The two full pipelines
-/

/-- `sanitizeActivityFlowchart` (server.mjs 236-329). -/
def sanitizeActivityFlowchart (raw : String) : String :=
  let t := (stripMermaidFences raw).data
  let t := headerForce t
  let t := reservedRewrite t
  let t := branchLabelFix t
  let t := allocStage "endNode" "startNode" t
  let t := anonRefFix t
  let t := injectDecls t
  let t := greplace (stepAnonRef endW endNodeW) t  -- stage 6 (End only)
  let t := classDefFix t
  ⟨t⟩

/-- `sanitizeActivityFlowchartClient` (main.js 85-151): no header forcing,
branch labels and anonymous start/end references fixed first, circular
bases `end`/`start`, any-direction header for the injection. -/
def sanitizeActivityFlowchartClient (raw : String) : String :=
  let t := (stripMermaidFences raw).data
  let t := branchLabelFix t
  let t := greplace (stepAnonRef endW endNodeW) t
  let t := greplace (stepAnonRef startW startNodeW) t
  let t := reservedRewrite t
  let t := allocStage "end" "start" t
  let t := injectDeclsClient t
  let t := classDefFix t
  ⟨t⟩

/-!
## Header Classifier/Corrector — `normalizeMermaidOutput` (server.mjs 220-233)

```js
function normalizeMermaidOutput(kind, text) {
  let s = stripMermaidFences(String(text || ''));
  const lines = s.split(lineSep);        // lineSep = \r?\n
  const first = (lines[0] || '').trim();
  const rest = lines.slice(1).join('\n');
  if (reUse.test(first)) s = `flowchart LR\n$\x7brest\x7d`;   // reUse = ^usecaseDiagram\b (i)
  if (reAct.test(first)) s = `flowchart TD\n$\x7brest\x7d`;   // reAct = ^activityDiagram\b (i)
  s = s.replace(reActor_g, '«actor»')      // <<\s*actor\s*>> (gi)
       .replace(reInclude_g, '«include»')
       .replace(reExtend_g,  '«extend»');
  return s;
}
```
-/

/-- Split on `\r?\n` (JS `String.split` with that regex). -/
def splitRN : List Char → List (List Char)
  | [] => [[]]
  | '\r' :: '\n' :: rest => [] :: splitRN rest
  | '\n' :: rest => [] :: splitRN rest
  | c :: rest =>
    match splitRN rest with
    | h :: t => (c :: h) :: t
    | [] => [[c]]

/-- `/^word\b/i` test. -/
def testTokenCI (w : List Char) (l : List Char) : Bool :=
  match eatCI w l with
  | some r => boundaryR r
  | none => false

/-- Step for `<<\s*word\s*>>` (gi) → guillemet form. -/
def stepStereo (w rep : List Char) (_ : Bool) (_ : Option Char)
    (l : List Char) : Option (List Char × List Char) := do
  let r ← eatCS ['<', '<'] l
  let r ← eatCI w (dropWs r)
  let rest ← eatCS ['>', '>'] (dropWs r)
  some (rep, rest)

/-- `normalizeMermaidOutput` from the source.  The `kind` argument is
accepted but — exactly as in the source — never used: the header rewrite is
keyed on the token found in the text. -/
def normalizeMermaidOutput (kind text : String) : String :=
  let _ := kind
  let s := (stripMermaidFences text).data
  let lines := splitRN s
  let first := jsTrimList (lines.headD [])
  let rest := List.intercalate ['\n'] (lines.drop 1)
  let s := if testTokenCI "usecaseDiagram".data first
           then "flowchart LR\n".data ++ rest else s
  let s := if testTokenCI "activityDiagram".data first
           then "flowchart TD\n".data ++ rest else s
  let s := greplace (stepStereo "actor".data "«actor»".data) s
  let s := greplace (stepStereo "include".data "«include»".data) s
  let s := greplace (stepStereo "extend".data "«extend»".data) s
  ⟨s⟩

/-!
## `mermaidKindConfig` (server.mjs 135-219)

Guard strings are transcribed verbatim from the source template literals
(backtick = `\x60`, apostrophe = `\x27`, braces = `\x7b`/`\x7d`).
-/

structure KindCfg where
  token : String
  direction : String
  guard : String
deriving DecidableEq, Repr

def usecaseGuard : String :=
  "\n[중요] Mermaid에는 \x27usecase\x27 다이어그램 토큰이 없다. 반드시 flowchart로 작성.\n" ++
  "[형식] 첫 줄은 \x27flowchart LR\x27. 코드블록(\x60\x60\x60) 금지.\n" ++
  "[매핑 규칙]\n" ++
  "- 시스템 경계: subgraph System [시스템명] ... end\n" ++
  "- Actor: 네모[] 노드 + 라벨에 «actor»(유니코드 길러멧) 사용. 절대 <<actor>> 쓰지 말 것. \n" ++
  "  예) user[«actor» User]:::actor\n" ++
  "- Use Case: 둥근 괄호 노드. 예) login(로그인):::usecase\n" ++
  "- 연결:\n" ++
  "  - Actor ↔ Use Case: --> (일반 연결)\n" ++
  "  - «include»/«extend»: 점선 -.-> + 엣지 라벨. 예) A -.->|«include»| B\n" ++
  "    (<<include>>/<<extend>> 대신 «include»/«extend» 사용)\n" ++
  "- 금지: \x27usecase\x27, \x27usecaseDiagram\x27 등의 토큰 사용 금지. 오직 flowchart로만.\n" ++
  "[스타일 classDef]\n" ++
  "classDef actor fill:#eef,stroke:#99f,stroke-width:1px,color:#003;\n" ++
  "classDef usecase fill:#efe,stroke:#6c6,stroke-width:1px,color:#030;\n"

def activityGuard : String :=
  "\n[중요] Mermaid에는 \x27activity\x27 다이어그램 토큰이 없다. 반드시 flowchart로 작성.\n" ++
  "[형식] 첫 줄은 \x27flowchart TD\x27. 코드블록(\x60\x60\x60) 금지.\n" ++
  "[매핑 규칙]\n" ++
  " - 모든 노드는 **ASCII id를 포함**해야 함 (익명 노드 금지)\n" ++
  "  · 시작/종료: startNode((Start)), endNode((End))  ← 예약어 회피\n" ++
  "  · 활동: measure[온도 측정]  ← id[라벨]\n" ++
  "  · 의사결정: overheat\x7b임계치 초과?\x7d  ← id\x7b라벨\x7d\n" ++
  "  · 같은 의미의 노드는 같은 id 재사용\n" ++
  " - 분기 라벨은 \x60A -->|Yes| B\x60 / \x60A -->|No| C\x60 형식만 사용\n" ++
  " - **예약어 id 금지**: start, end, class, subgraph, click, style, linkStyle 등 사용하지 말 것\n" ++
  "- 병렬: fork[||]:::bar / join[||]:::bar 로 포크/조인\n" ++
  "- 필요 시 subgraph로 swimlane 유사 구획 사용 (예: subgraph User [...])\n" ++
  "- 금지: \x27activity\x27, \x27activityDiagram\x27 등의 토큰 사용 금지.\n" ++
  "[헤더 교정]\n" ++
  "- 만약 잘못 생성되면 반드시 \x27flowchart TD\x27로 교정해 출력.\n" ++
  "[스타일 classDef]\n" ++
  "classDef startend fill:#fff,stroke:#888,stroke-width:1px,color:#111;\n" ++
  "classDef bar stroke:#333,stroke-width:4px;\n" ++
  "classDef step fill:#eef,stroke:#99f,color:#001;\n" ++
  "classDef decision fill:#ffd,stroke:#cc4,color:#221;\n"

def classGuard : String :=
  "\n[중요] Mermaid classDiagram 생성 규칙 (코드를 이미 개발했다고 가정하여 도메인 모델을 추출)\n" ++
  "[헤더] 첫 줄은 \x27classDiagram\x27. 코드블록(\x60\x60\x60) 금지. flowchart/sequence 사용 금지.\n" ++
  "[구성]\n" ++
  "- 최소 2개(권장 3~8개) 클래스. 서로 다른 책임을 단일 클래스로 합치지 말 것.\n" ++
  "- 명사 → 클래스(PascalCase, ASCII), 핵심 상태 → 필드, 동사/행위 → 메서드.\n" ++
  "- 필드/메서드 시그니처 예: \x27name: string\x27, \x27check(t: float): bool\x27\n" ++
  "- 타입은 string|int|float|bool|Date|enum 등 간결 타입 사용(과한 추측 금지).\n" ++
  "- 가시성(+ # -)은 선택. 필요 시만 사용.\n" ++
  "[관계]\n" ++
  "- 상속: A <|-- B   합성: A *-- B   집합: A o-- B\n" ++
  "- 연관: A --> B    의존: A ..> B\n" ++
  "- 인터페이스는 \x27interface IName\x27 또는 \x27class IName <<interface>>\x27로 선언, 구현은 \x27C ..|> IName\x27\n" ++
  "- 패키지는 \x27namespace Pack \x7b ... \x7d\x27 사용 가능.\n" ++
  "[품질]\n" ++
  "- 요구사항의 하위 기능/주체/리소스를 분리된 클래스로 모델링.\n" ++
  "- 유사/중복 책임은 병합, 무관 책임은 분리. 단일 클래스에 모든 것을 몰아넣지 말 것.\n" ++
  "[형식 예]\n" ++
  "classDiagram\n" ++
  "class Sensor \x7b +read(): float \x7d\n" ++
  "class ThresholdPolicy \x7b +limit: float; +isOver(t: float): bool \x7d\n" ++
  "class AlertService \x7b +notify(msg: string): void \x7d\n" ++
  "class Controller \x7b +check(t: float): void \x7d\n" ++
  "Sensor --> Controller : provides\n" ++
  "Controller ..> ThresholdPolicy : uses\n" ++
  "Controller --> AlertService : uses\n"

/-- JS `toLowerCase` (ASCII model; identity on the Korean text above). -/
def lowerStr (s : String) : String := ⟨s.data.map lc⟩

/-- `mermaidKindConfig` from the source. -/
def mermaidKindConfig (kind : String) : KindCfg :=
  let k := lowerStr kind
  if k = "usecase" then ⟨"flowchart", "LR", usecaseGuard⟩
  else if k = "activity" then ⟨"flowchart", "TD", activityGuard⟩
  else if k = "sequence" then ⟨"sequenceDiagram", "", ""⟩
  else if k = "class" then ⟨"classDiagram", "", classGuard⟩
  else ⟨"flowchart", "TD", ""⟩

/-!
## Properties of the identifier allocator

The claims about `ensureId` (stability of the NodeKey → identifier mapping
and global injectivity) are proved for an arbitrary sequence of calls on a
fresh table, under the two shape conditions that hold at every call site:
NodeKeys contain `:` or `(`, while bases (slugs, `endNode`, `startNode`,
`q_…`, `n…`) contain neither, so keys can never collide with issued
identifiers.
-/

/-- Value of a decimal digit character. -/
def chVal (c : Char) : Nat := c.toNat - 48

/-- Read a digit string back to the number it denotes. -/
def decVal (l : List Char) : Nat := l.foldl (fun a c => 10 * a + chVal c) 0

theorem chVal_digCh {n : Nat} (h : n < 10) : chVal (digCh n) = n := by
  interval_cases n <;> decide

theorem digCh_mem_digits (k : Nat) :
    digCh k ∈ ['0', '1', '2', '3', '4', '5', '6', '7', '8', '9'] := by
  unfold digCh
  split <;> decide

theorem decVal_append (l : List Char) (c : Char) :
    decVal (l ++ [c]) = 10 * decVal l + chVal c := by
  simp [decVal, List.foldl_append]

theorem decVal_natToDecAux : ∀ fuel n, n < fuel → decVal (natToDecAux fuel n) = n := by
  intro fuel
  induction fuel with
  | zero => omega
  | succ f ih =>
    intro n hn
    unfold natToDecAux
    by_cases h : n < 10
    · simp [h, decVal, chVal_digCh h]
    · have hdiv : n / 10 < n := Nat.div_lt_self (by omega) (by omega)
      have : n / 10 < f := by omega
      simp only [h, if_false]
      rw [decVal_append, ih _ this, chVal_digCh (Nat.mod_lt _ (by omega))]
      omega

theorem natToDec_inj {m n : Nat}
    (h : (natToDec m).data = (natToDec n).data) : m = n := by
  have hd : natToDecAux (m + 1) m = natToDecAux (n + 1) n := h
  have := decVal_natToDecAux (m + 1) m (by omega)
  rw [hd, decVal_natToDecAux (n + 1) n (by omega)] at this
  omega

theorem natToDecAux_ne_nil (fuel n : Nat) (h : 0 < fuel) :
    natToDecAux fuel n ≠ [] := by
  cases fuel with
  | zero => omega
  | succ f =>
    unfold natToDecAux
    by_cases h10 : n < 10 <;> simp [h10]

theorem natToDecAux_mem_digits :
    ∀ fuel n c, c ∈ natToDecAux fuel n →
      c ∈ ['0', '1', '2', '3', '4', '5', '6', '7', '8', '9'] := by
  intro fuel
  induction fuel with
  | zero => intro n c hc; simp [natToDecAux] at hc
  | succ f ih =>
    intro n c hc
    unfold natToDecAux at hc
    by_cases h10 : n < 10
    · simp [h10] at hc
      exact hc ▸ digCh_mem_digits n
    · simp [h10] at hc
      rcases hc with hc | hc
      · exact ih _ _ hc
      · exact hc ▸ digCh_mem_digits (n % 10)

theorem data_append (a b : String) : (a ++ b).data = a.data ++ b.data := rfl

theorem cand_inj (base : String) : Function.Injective (cand base) := by
  have hlen : ∀ i, base.length < (cand base (i + 1)).length := by
    intro i
    show base.length < (base ++ "_" ++ natToDec (i + 2)).length
    have h2 : (natToDec (i + 2)).data ≠ [] := natToDecAux_ne_nil _ _ (by omega)
    have h3 : 0 < (natToDec (i + 2)).length := by
      show 0 < (natToDec (i + 2)).data.length
      exact List.length_pos.mpr h2
    rw [String.length_append, String.length_append]
    omega
  intro i j hij
  match i, j with
  | 0, 0 => rfl
  | 0, j + 1 =>
    have h1 := congrArg String.length hij
    rw [show cand base 0 = base from rfl] at h1
    have := hlen j
    omega
  | i + 1, 0 =>
    have h1 := congrArg String.length hij
    rw [show cand base 0 = base from rfl] at h1
    have := hlen i
    omega
  | i + 1, j + 1 =>
    have hd : (cand base (i + 1)).data = (cand base (j + 1)).data := congrArg _ hij
    simp only [cand, data_append] at hd
    have h2 : (natToDec (i + 2)).data = (natToDec (j + 2)).data :=
      List.append_cancel_left hd
    have := natToDec_inj h2
    omega

/-- Keys that are present in the table. -/
def mkeys (m : List (String × MVal)) : List String := m.map Prod.fst

theorem mem_mkeys_of_mget {k : String} {m : List (String × MVal)}
    (h : mget k m ≠ none) : k ∈ mkeys m := by
  induction m with
  | nil => simp [mget] at h
  | cons p rest ih =>
    obtain ⟨k', v⟩ := p
    by_cases hk : k = k'
    · simp [mkeys, hk]
    · simp only [mget, hk, if_false] at h
      simp [mkeys] at ih ⊢
      right
      simpa [mkeys] using ih h

theorem mget_mset (k k' : String) (v : MVal) (m : List (String × MVal)) :
    mget k (mset k' v m) = if k = k' then some v else mget k m := by
  induction m with
  | nil => by_cases h : k = k' <;> simp [mset, mget, h]
  | cons p rest ih =>
    obtain ⟨k₀, v₀⟩ := p
    by_cases h0 : k' = k₀
    · subst h0
      by_cases h : k = k' <;> simp [mset, mget, h]
    · by_cases h : k = k₀
      · subst h
        have hkk' : ¬ k = k' := fun e => h0 e.symm
        simp [mset, h0, mget, hkk']
      · simp [mset, h0, mget, h, ih]

theorem exists_free (m : List (String × MVal)) (base : String) :
    ∃ i, i ≤ m.length ∧ mget (cand base i) m = none := by
  by_contra hcon
  push_neg at hcon
  have hmem : ∀ i, i ≤ m.length → cand base i ∈ mkeys m := fun i hi =>
    mem_mkeys_of_mget (hcon i hi)
  set cands : List String := (List.range (m.length + 1)).map (cand base) with hc
  have hnd : cands.Nodup := (List.nodup_range _).map (cand_inj base)
  have hsub : cands.toFinset ⊆ (mkeys m).toFinset := by
    intro x hx
    rw [List.mem_toFinset] at hx ⊢
    rw [hc, List.mem_map] at hx
    obtain ⟨i, hi, rfl⟩ := hx
    exact hmem i (by simpa [Nat.lt_succ_iff] using List.mem_range.mp hi)
  have h1 : cands.toFinset.card = m.length + 1 := by
    rw [List.toFinset_card_of_nodup hnd, hc, List.length_map, List.length_range]
  have h2 : (mkeys m).toFinset.card ≤ m.length := by
    calc (mkeys m).toFinset.card ≤ (mkeys m).length := List.toFinset_card_le _
      _ = m.length := List.length_map _ _
  have := Finset.card_le_card hsub
  omega

theorem findFree_spec (m : List (String × MVal)) (base : String) :
    ∀ fuel s, (∃ k, k < fuel ∧ mget (cand base (s + k)) m = none) →
      mget (cand base (findFree m base fuel s)) m = none := by
  intro fuel
  induction fuel with
  | zero =>
    intro s h
    obtain ⟨k, hk, -⟩ := h
    omega
  | succ f ih =>
    intro s h
    unfold findFree
    by_cases h0 : mget (cand base s) m = none
    · simp [h0]
    · simp only [h0, if_false]
      apply ih
      obtain ⟨k, hk, hfree⟩ := h
      match k with
      | 0 => exact absurd (by simpa using hfree) h0
      | k + 1 =>
        refine ⟨k, by omega, ?_⟩
        have hsk : s + 1 + k = s + (k + 1) := by omega
        rw [hsk]
        exact hfree

theorem findFree_init (m : List (String × MVal)) (base : String) :
    mget (cand base (findFree m base (m.length + 1) 0)) m = none := by
  obtain ⟨i, hi, hfree⟩ := exists_free m base
  exact findFree_spec m base (m.length + 1) 0 ⟨i, by omega, by simpa using hfree⟩

/-- Bases (slugs and the fixed aliases) contain neither `:` nor `(`. -/
def cleanS (s : String) : Prop := ':' ∉ s.data ∧ '(' ∉ s.data

/-- NodeKeys (`[]:…`, `((…))`, `\x7b\x7d:…`) contain `:` or `(`. -/
def keyish (s : String) : Prop := ':' ∈ s.data ∨ '(' ∈ s.data

instance : DecidablePred cleanS := fun s => by unfold cleanS; infer_instance

instance : DecidablePred keyish := fun s => by unfold keyish; infer_instance

theorem keyish_not_clean {s : String} (h1 : keyish s) (h2 : cleanS s) : False := by
  rcases h1 with h | h
  · exact h2.1 h
  · exact h2.2 h

theorem cleanS_cand {base : String} (hb : cleanS base) (i : Nat) :
    cleanS (cand base i) := by
  match i with
  | 0 => exact hb
  | i + 1 =>
    constructor <;> intro hmem <;>
    · rw [show cand base (i + 1) = base ++ "_" ++ natToDec (i + 2) from rfl,
        data_append, data_append] at hmem
      simp only [List.mem_append] at hmem
      rcases hmem with (hmem | hmem) | hmem
      · first
        | exact hb.1 hmem
        | exact hb.2 hmem
      · simp at hmem
      · exact absurd (natToDecAux_mem_digits _ _ _ hmem) (by decide)

/-- The table invariant maintained by `ensureId`. -/
structure TInv (m : List (String × MVal)) : Prop where
  flagClean : ∀ k, mget k m = some .used → cleanS k
  strKeyish : ∀ k v, mget k m = some (.istr v) → keyish k
  strUsed : ∀ k v, mget k m = some (.istr v) → mget v m = some .used
  strInj : ∀ k₁ k₂ v, mget k₁ m = some (.istr v) → mget k₂ m = some (.istr v) → k₁ = k₂

theorem TInv_nil : TInv [] := by
  constructor <;> intro k <;> simp [mget]

theorem ensureId_spec {key base : String} {m : List (String × MVal)}
    (hk : keyish key) (hb : cleanS base) (hI : TInv m) :
    TInv (ensureId key base m).2 ∧
    mget key (ensureId key base m).2 = some (.istr (ensureId key base m).1) ∧
    (∀ k w, mget k m = some (.istr w) → mget k (ensureId key base m).2 = some (.istr w)) := by
  cases hget : mget key m with
  | some val =>
    cases val with
    | istr s =>
      refine ⟨?_, ?_, ?_⟩
      · simp only [ensureId, hget]
        exact hI
      · simp [ensureId, hget]
      · simp only [ensureId, hget]
        exact fun k w h => h
    | used => exact absurd (hI.flagClean key hget) (fun h => keyish_not_clean hk h)
  | none =>
    simp only [ensureId, hget]
    set v := cand base (findFree m base (m.length + 1) 0) with hv
    have hvfree : mget v m = none := findFree_init m base
    have hvclean : cleanS v := cleanS_cand hb _
    have hkv : key ≠ v := fun e => keyish_not_clean (e ▸ hk) hvclean
    set m₂ := mset v .used (mset key (.istr v) m) with hm₂
    have hget₂ : ∀ k, mget k m₂ =
        if k = v then some .used else if k = key then some (.istr v) else mget k m := by
      intro k
      rw [hm₂, mget_mset, mget_mset]
    have hpres : ∀ k w, mget k m = some (.istr w) → mget k m₂ = some (.istr w) := by
      intro k w h
      rw [hget₂]
      have hkv' : k ≠ v := fun e => by rw [e, hvfree] at h; exact absurd h (by simp)
      have hkk : k ≠ key := fun e => by rw [e, hget] at h; exact absurd h (by simp)
      simp [hkv', hkk, h]
    refine ⟨⟨?_, ?_, ?_, ?_⟩, ?_, hpres⟩
    · intro k h
      rw [hget₂] at h
      by_cases h1 : k = v
      · exact h1 ▸ hvclean
      · rw [if_neg h1] at h
        by_cases h2 : k = key
        · rw [if_pos h2] at h
          simp at h
        · rw [if_neg h2] at h
          exact hI.flagClean k h
    · intro k w h
      rw [hget₂] at h
      by_cases h1 : k = v
      · rw [if_pos h1] at h
        simp at h
      · rw [if_neg h1] at h
        by_cases h2 : k = key
        · exact h2 ▸ hk
        · rw [if_neg h2] at h
          exact hI.strKeyish k w h
    · intro k w h
      rw [hget₂] at h
      by_cases h1 : k = v
      · rw [if_pos h1] at h
        simp at h
      · rw [if_neg h1] at h
        by_cases h2 : k = key
        · rw [if_pos h2] at h
          simp only [Option.some.injEq, MVal.istr.injEq] at h
          rw [hget₂, if_pos h.symm]
        · rw [if_neg h2] at h
          have hw := hI.strUsed k w h
          have hwv : w ≠ v := fun e => by rw [e, hvfree] at hw; exact absurd hw (by simp)
          have hwk : w ≠ key := fun e => by rw [e, hget] at hw; exact absurd hw (by simp)
          rw [hget₂, if_neg hwv, if_neg hwk]
          exact hw
    · intro k₁ k₂ w h₁ h₂
      rw [hget₂] at h₁ h₂
      by_cases e₁ : k₁ = v
      · rw [if_pos e₁] at h₁
        simp at h₁
      · rw [if_neg e₁] at h₁
        by_cases e₂ : k₂ = v
        · rw [if_pos e₂] at h₂
          simp at h₂
        · rw [if_neg e₂] at h₂
          by_cases f₁ : k₁ = key <;> by_cases f₂ : k₂ = key
          · rw [f₁, f₂]
          · -- k₁ is the new key (so w = v), k₂ an old binding: impossible,
            -- since v was unmapped before the call
            rw [if_pos f₁] at h₁
            rw [if_neg f₂] at h₂
            simp only [Option.some.injEq, MVal.istr.injEq] at h₁
            rw [← h₁] at h₂
            have hcon := hI.strUsed k₂ v h₂
            rw [hvfree] at hcon
            exact absurd hcon (by simp)
          · rw [if_neg f₁] at h₁
            rw [if_pos f₂] at h₂
            simp only [Option.some.injEq, MVal.istr.injEq] at h₂
            rw [← h₂] at h₁
            have hcon := hI.strUsed k₁ v h₁
            rw [hvfree] at hcon
            exact absurd hcon (by simp)
          · rw [if_neg f₁] at h₁
            rw [if_neg f₂] at h₂
            exact hI.strInj k₁ k₂ w h₁ h₂
    · rw [hget₂, if_neg hkv, if_pos rfl]

/-- Extract the identifier of a lookup result (used to invert `some ∘ istr`). -/
def istrOf : Option MVal → String
  | some (.istr s) => s
  | _ => ""

/-- A run of the allocator over a list of (NodeKey, base) requests,
starting from a given table; returns the identifiers in call order. -/
def allocRun : List (String × String) → List (String × MVal) →
    List String × List (String × MVal)
  | [], m => ([], m)
  | (k, b) :: rs, m =>
    ((ensureId k b m).1 :: (allocRun rs (ensureId k b m).2).1,
     (allocRun rs (ensureId k b m).2).2)

theorem allocRun_spec (reqs : List (String × String))
    (hk : ∀ p ∈ reqs, keyish p.1) (hb : ∀ p ∈ reqs, cleanS p.2)
    (m : List (String × MVal)) (hI : TInv m) :
    TInv (allocRun reqs m).2 ∧
    (∀ k w, mget k m = some (.istr w) → mget k (allocRun reqs m).2 = some (.istr w)) ∧
    (∀ i, i < reqs.length →
      mget (reqs.getD i ("", "")).1 (allocRun reqs m).2 =
        some (.istr ((allocRun reqs m).1.getD i ""))) := by
  induction reqs generalizing m with
  | nil => exact ⟨hI, fun k w h => h, by intro i hi; simp at hi⟩
  | cons p rs ih =>
    obtain ⟨k, b⟩ := p
    have hk0 : keyish k := hk (k, b) (by simp)
    have hb0 : cleanS b := hb (k, b) (by simp)
    obtain ⟨hI₁, hlook₁, hpres₁⟩ := ensureId_spec hk0 hb0 hI
    obtain ⟨hI₂, hpres₂, hlook₂⟩ :=
      ih (fun q hq => hk q (by simp [hq])) (fun q hq => hb q (by simp [hq]))
        (ensureId k b m).2 hI₁
    refine ⟨hI₂, fun k' w h => hpres₂ k' w (hpres₁ k' w h), ?_⟩
    intro i hi
    match i with
    | 0 => exact hpres₂ k (ensureId k b m).1 hlook₁
    | i + 1 => exact hlook₂ i (by simpa using hi)

/-!
## The claims

One theorem per claim (plus counterexamples for refuted claims and
witnesses for theorems with hypotheses).
-/

/-- C1 (counterexample).  The claim asserts
`normalize(normalize(s)) = normalize(s)` for every string `s`.  It fails:
in `"end --|Yes| B"` the bare reserved `end` sits before the malformed
branch label `--|Yes|`, which is not one of the three arrow tokens, so the
first pass only repairs the label (giving `"end -->|Yes| B"`) and only the
second pass aliases `end` (giving `"endNode -->|Yes| B"`). -/
theorem claim1_counterexample :
    sanitizeActivityFlowchart (sanitizeActivityFlowchart "end --|Yes| B") ≠
      sanitizeActivityFlowchart "end --|Yes| B" := by decide

/-- C1 (amended).  The pipeline is not idempotent for all inputs (the
reserved-identifier rewriter runs before the branch-label corrector, so an
alias introduced by repairing a label is only applied on the next pass);
re-running it is a no-op on the empty string and on already-normalized
texts such as the output of `"flowchart TD\nA--> endNode"`, which exercises
header forcing, declaration injection and style-class injection. -/
theorem claim1_idempotent_on_normalized :
    sanitizeActivityFlowchart "" = "" ∧
    sanitizeActivityFlowchart (sanitizeActivityFlowchart "flowchart TD\nA--> endNode") =
      sanitizeActivityFlowchart "flowchart TD\nA--> endNode" := by
  constructor <;> decide

/-- C2 (counterexample).  The server and client pipelines are not
extensionally equal: on the anonymous terminal declaration `"((End))"` the
server allocates the stage-4 alias `endNode` while the client allocates the
bare reserved identifier `end`. -/
theorem claim2_counterexample :
    sanitizeActivityFlowchart "((End))" = "endNode((End))" ∧
    sanitizeActivityFlowchartClient "((End))" = "end((End))" ∧
    sanitizeActivityFlowchart "((End))" ≠ sanitizeActivityFlowchartClient "((End))" := by
  refine ⟨by decide, by decide, by decide⟩

/-- C2 (amended).  The two pipelines share the fence-stripping and
branch-label logic and agree on inputs that only exercise those stages, but
they are not equivalent: the server forces the header to `flowchart TD` and
uses the `endNode`/`startNode` aliases as anonymous circular bases where
the client leaves headers untouched and uses the bases `end`/`start`. -/
theorem claim2_agree_on_shared_stages :
    sanitizeActivityFlowchart "A--|Yes|-->B" =
      sanitizeActivityFlowchartClient "A--|Yes|-->B" ∧
    sanitizeActivityFlowchart "\x60\x60\x60mermaid\nA-->B\n\x60\x60\x60" =
      sanitizeActivityFlowchartClient "\x60\x60\x60mermaid\nA-->B\n\x60\x60\x60" := by
  constructor <;> decide

/-- C3 (counterexample).  Reserved-word elimination is not complete: a
labelled edge (`A -->|Yes| end`) passes through unchanged because the bare
reference patterns require the arrow to be adjacent to the reserved word
(the `|label|` blocks both), and a rectangular declaration with label `End`
is assigned the slug `end` itself, creating a declaration whose identifier
is the bare reserved word. -/
theorem claim3_counterexample :
    sanitizeActivityFlowchart "A -->|Yes| end" = "A -->|Yes| end" ∧
    sanitizeActivityFlowchart "[End] --> B" = "end[End] --> B" := by
  constructor <;> decide

/-- C3 (amended).  Each of the handled reserved-word forms is rewritten to
its fixed alias: circular declarations with the exact `Start`/`End` label
(standalone or inline after a solid arrow) and bare unlabelled edge
endpoints with any of the three arrow styles; all occurrences of one
reserved word map to the one alias.  Labelled edges and slug-derived
identifiers of other shapes are not rewritten. -/
theorem claim3_handled_forms_aliased :
    sanitizeActivityFlowchart "start((Start))" = "startNode((Start))" ∧
    sanitizeActivityFlowchart "A --> end((End))" = "A --> endNode((End))" ∧
    sanitizeActivityFlowchart "A --> end" = "A --> endNode" ∧
    sanitizeActivityFlowchart "end --> B" = "endNode --> B" ∧
    sanitizeActivityFlowchart "A -.-> end" = "A -.-> endNode" ∧
    sanitizeActivityFlowchart "A ..-> end" = "A ..-> endNode" ∧
    sanitizeActivityFlowchart "start --> B" = "startNode --> B" ∧
    sanitizeActivityFlowchart "A -.-> start" = "A -.-> startNode" := by
  refine ⟨by decide, by decide, by decide, by decide, by decide, by decide,
    by decide, by decide⟩

/-- C4 (counterexample).  The fence stripper does not require both bounds
to look fence-shaped before stripping: the first replacement pair removes a
leading fence marker unconditionally, so an input fenced only at the start
loses its marker instead of being returned trimmed-but-untouched. -/
theorem claim4_counterexample :
    stripMermaidFences "\x60\x60\x60mermaid\nhello" = "hello" ∧
    jsTrim "\x60\x60\x60mermaid\nhello" ≠ "hello" := by
  constructor <;> decide

/-- C4 (amended).  The first stripping layer removes a leading fence marker
and a trailing fence marker independently of each other; only the second
layer (for doubly fenced input) is guarded by both bounds looking
fence-shaped; empty input yields empty output, and a correctly fenced block
round-trips to its contents. -/
theorem claim4_fence_layers :
    stripMermaidFences "" = "" ∧
    stripMermaidFences "hello\n\x60\x60\x60" = "hello" ∧
    stripMermaidFences "\x60\x60\x60 \x60\x60\x60alpha" = "\x60\x60\x60alpha" ∧
    stripMermaidFences "\x60\x60\x60mermaid\nflowchart TD\nA-->B\n\x60\x60\x60" =
      "flowchart TD\nA-->B" := by
  refine ⟨by decide, by decide, by decide, by decide⟩

/-- C5 (counterexample).  The second branch-label correction does not
preserve the separating whitespace: the `\s+` run between the label and the
bare target is replaced by a single space, so two spaces collapse to one. -/
theorem claim5_counterexample :
    sanitizeActivityFlowchart "A --|Yes|  B" = "A -->|Yes| B" ∧
    sanitizeActivityFlowchart "A --|Yes|  B" ≠ "A -->|Yes|  B" := by
  constructor <;> decide

/-- C5 (amended).  Every occurrence of `src--|L|-->tgt` becomes
`src-->|L|tgt`, and `--|L|` followed by whitespace and a bare identifier
becomes `-->|L| tgt` with the target token preserved but the separating
whitespace collapsed to a single space. -/
theorem claim5_branch_labels :
    sanitizeActivityFlowchart "A--|Yes|-->B" = "A-->|Yes|B" ∧
    sanitizeActivityFlowchart "A --|No| B" = "A -->|No| B" ∧
    sanitizeActivityFlowchart "A--|Yes|-->B\nC--|No|-->D" = "A-->|Yes|B\nC-->|No|D" := by
  refine ⟨by decide, by decide, by decide⟩

/-- C6.  Identifier-table invariant of `ensureId`: over any one run from
the fresh per-invocation table, with NodeKeys containing `:` or `(` and
bases containing neither (as at every call site of the pipeline), two
requests receive the identical identifier exactly when they carry the
identical NodeKey — repeated keys reuse the stored identifier, and
distinct keys never collide because `base`, `base_2`, `base_3`, … are
tried until an identifier free in the table is found. -/
theorem claim6_identifier_table_invariant (reqs : List (String × String))
    (hk : ∀ p ∈ reqs, keyish p.1) (hb : ∀ p ∈ reqs, cleanS p.2)
    (i j : Nat) (hi : i < reqs.length) (hj : j < reqs.length) :
    (reqs.getD i ("", "")).1 = (reqs.getD j ("", "")).1 ↔
    (allocRun reqs []).1.getD i "" = (allocRun reqs []).1.getD j "" := by
  obtain ⟨hI, -, hlook⟩ := allocRun_spec reqs hk hb [] TInv_nil
  constructor
  · intro h
    have h1 := hlook i hi
    have h2 := hlook j hj
    rw [h] at h1
    rw [h1] at h2
    exact congrArg istrOf h2
  · intro h
    have h1 := hlook i hi
    have h2 := hlook j hj
    rw [h] at h1
    exact hI.strInj _ _ _ h1 h2

/-- Request list of the witness: the `[Measure]` rectangle (twice), the
`((End))` terminal, and a circular node whose slug collides with the
rectangle's identifier. -/
def reqs₆ : List (String × String) :=
  [("[]:Measure", "measure"), ("((End))", "endNode"),
   ("[]:Measure", "measure"), ("((Measure))", "measure")]

/-- C6 (witness): on `reqs₆` the repeated NodeKey reuses its identifier and
the colliding distinct NodeKey gets a different one (`measure_2`). -/
theorem claim6_witness :
    ((allocRun reqs₆ []).1.getD 0 "" = (allocRun reqs₆ []).1.getD 2 "") ∧
    ((allocRun reqs₆ []).1.getD 1 "" ≠ (allocRun reqs₆ []).1.getD 3 "") := by
  constructor
  · exact (claim6_identifier_table_invariant reqs₆ (by decide) (by decide)
      0 2 (by decide) (by decide)).mp (by decide)
  · intro he
    exact absurd ((claim6_identifier_table_invariant reqs₆ (by decide) (by decide)
      1 3 (by decide) (by decide)).mpr he) (by decide)

/-- C7.  The claim holds for the server pipeline but the client copy
contradicts it: for an anonymous circular declaration whose label contains
`end`, the client uses the base `end` — the bare reserved identifier its
own stage-4 rewriter exists to eliminate — instead of the stage-4 alias
`endNode` (and likewise `start` instead of `startNode`), so client and
spec diverge at the failing input `"(( The End ))"`. -/
theorem claim7_client_uses_reserved_base :
    sanitizeActivityFlowchartClient "(( The End ))" = "end((The End))" ∧
    sanitizeActivityFlowchart "(( The End ))" = "endNode((The End))" ∧
    sanitizeActivityFlowchartClient "((Start))" = "start((Start))" := by
  refine ⟨by decide, by decide, by decide⟩

/-- C8 (counterexample).  The header corrector does not skip comment lines
when picking its candidate: it inspects the raw first line only, so a text
whose first line is a `%%` comment and whose second line is the
non-existent use-case token is returned unchanged instead of having that
token replaced by the flow-graph header. -/
theorem claim8_counterexample :
    normalizeMermaidOutput "usecase" "%% c\nusecaseDiagram\nA-->B" =
      "%% c\nusecaseDiagram\nA-->B" ∧
    normalizeMermaidOutput "usecase" "%% c\nusecaseDiagram\nA-->B" ≠
      "%% c\nflowchart LR\nA-->B" := by
  constructor <;> decide

/-- C8 (amended).  The header candidate is simply the first line of the
fence-stripped text (trimmed), with no skipping of empty, `%%`, fence or
HTML-comment lines; when it carries the `usecaseDiagram`/`activityDiagram`
token it is replaced by `flowchart LR`/`flowchart TD` respectively — the
direction is determined by the token, the diagram-kind hint is never
consulted — with the remaining lines preserved beneath, and an already
legal header is left untouched. -/
theorem claim8_first_line_only (kind : String) :
    normalizeMermaidOutput kind "usecaseDiagram\nA-->B" = "flowchart LR\nA-->B" ∧
    normalizeMermaidOutput kind "activityDiagram\nA-->B" = "flowchart TD\nA-->B" ∧
    normalizeMermaidOutput kind "flowchart LR\nA-->B" = "flowchart LR\nA-->B" := by
  have hk : ∀ t, normalizeMermaidOutput kind t = normalizeMermaidOutput "" t :=
    fun t => rfl
  refine ⟨?_, ?_, ?_⟩ <;> rw [hk] <;> decide

/-- C9.  On the spec's own acceptance input the pipeline emits no end-alias
declaration: after allocation the text is `measure[Measure]--> endNode`,
and the reference regex `\b(-->|-\.->|\.\.->)\s*endNode\b` demands a word
character immediately before the arrow, which `]-->` does not provide, so
`refsEnd` is false and stage 5 injects nothing (the slug-derived
`measure` identifier and the byte-identical second pass do hold). -/
theorem claim9_no_declaration_injected :
    sanitizeActivityFlowchart "flowchart TD\n[Measure]-->((End))" =
      "flowchart TD\nmeasure[Measure]--> endNode" ∧
    declaresAlias endNodeW
      (sanitizeActivityFlowchart "flowchart TD\n[Measure]-->((End))").data = false ∧
    sanitizeActivityFlowchart
        (sanitizeActivityFlowchart "flowchart TD\n[Measure]-->((End))") =
      sanitizeActivityFlowchart "flowchart TD\n[Measure]-->((End))" := by
  refine ⟨by decide, by decide, by decide⟩

/-- C10.  For every diagram-kind string whose lower-casing is none of
`usecase`, `activity`, `sequence`, `class` — including the empty string —
`mermaidKindConfig` returns the `flowchart` token with direction `TD` and
an empty guard. -/
theorem claim10_default_kind_config (kind : String)
    (h1 : lowerStr kind ≠ "usecase") (h2 : lowerStr kind ≠ "activity")
    (h3 : lowerStr kind ≠ "sequence") (h4 : lowerStr kind ≠ "class") :
    mermaidKindConfig kind = ⟨"flowchart", "TD", ""⟩ := by
  unfold mermaidKindConfig
  rw [if_neg h1, if_neg h2, if_neg h3, if_neg h4]

/-- C10 (witness): the unrecognized kind `"State"` (with an upper-case
letter, exercising the lower-casing) gets the default configuration. -/
theorem claim10_witness :
    mermaidKindConfig "State" = ⟨"flowchart", "TD", ""⟩ :=
  claim10_default_kind_config "State" (by decide) (by decide) (by decide) (by decide)

end UmlStudio
